import Mathlib

/-!
Shallow embedding of the encryption core of the Q-Transfer backend
(`quantum_engine.py`).  Python byte strings are modelled as `List ℕ`
(each entry a byte value), Python IEEE-754 doubles are modelled as exact
rationals `ℚ` (the chaotic-map arithmetic is carried out exactly; every
structural property proved below is independent of the rounding of the
trajectory values), and Python's unbounded integers as `ℕ` / `ℤ` with
explicit masks.  Fallible operations (`struct.pack`/`struct.unpack`,
which raise on out-of-range input) are modelled with `Option`:
`quantum_decrypt` returns `Option (Option (List ℕ))`, where the outer
`none` is an uncaught exception escaping the function, `some none` is
Python's `return None` (the uniform failure signal) and `some (some bs)`
is a successful return of the bytes `bs`.
-/

/-- Python `int(q)` on a real value: truncation toward zero. -/
def pyInt (q : ℚ) : ℤ :=
  if 0 ≤ q then q.floor else -((-q).floor)

/-- The character Python's `%x` formatting uses for the hex digit `n < 16`:
digits `0`-`9` then lowercase `a`-`f`. -/
def hexDigit (n : ℕ) : Char :=
  if n < 10 then Char.ofNat (48 + n) else Char.ofNat (87 + n)

/-- Lowercase hexadecimal rendering of a natural number, most significant
digit first, no padding (Python `"%x" % n` for positive `n`). -/
def natToHex (n : ℕ) : List Char :=
  if h : n < 16 then [hexDigit n]
  else natToHex (n / 16) ++ [hexDigit (n % 16)]
  decreasing_by exact Nat.div_lt_self (by omega) (by omega)

/-- Python `f"{b:02x}"`: lowercase hex of `b`, zero-padded to width 2. -/
def pyHex02 (n : ℕ) : List Char :=
  let ds := natToHex n
  if ds.length < 2 then '0' :: ds else ds

/-- Byte-wise XOR (`^` on Python ints, both operands byte values here). -/
def xorB (a b : ℕ) : ℕ := a ^^^ b

/-- `struct.pack(">I", n)` for in-range `n`: the four big-endian bytes of a
32-bit unsigned integer.  (`quantum_encrypt` guards the out-of-range case,
where Python raises `struct.error`.) -/
def pack_be32 (n : ℕ) : List ℕ :=
  [n / 16777216 % 256, n / 65536 % 256, n / 256 % 256, n % 256]

/-- `struct.unpack(">I", bs)[0]`: succeeds only on exactly four bytes
(Python raises `struct.error` otherwise), returning the big-endian value. -/
def unpack_be32 : List ℕ → Option ℕ
  | [b0, b1, b2, b3] => some (b0 * 16777216 + b1 * 65536 + b2 * 256 + b3)
  | _ => none

/-- `logistic_map(x, r=3.99)` from `quantum_engine.py`; every call site
uses the default `r`, so the constant is inlined. -/
def logistic_map (x : ℚ) : ℚ := 3.99 * x * (1 - x)

/-- `tent_map(x, mu=1.99)` from `quantum_engine.py`; every call site uses
the default `mu`. -/
def tent_map (x : ℚ) : ℚ := if x < 0.5 then 1.99 * x else 1.99 * (1 - x)

/-- The 32-bit accumulator loop of `generate_entropy_seed`: for each
character, `acc = ((acc << 5) - acc + ord(ch)) & 0xFFFFFFFF` followed by
`acc ^= acc >> 16`.  `acc` stays non-negative throughout (it starts at 0
and is masked), so `ℕ` subtraction agrees with Python's. -/
def seedAcc (password : String) : ℕ :=
  password.data.foldl
    (fun acc ch =>
      let a := ((acc <<< 5) - acc + ch.toNat) &&& 0xFFFFFFFF
      a ^^^ (a >>> 16))
    0

/-- `generate_entropy_seed(password)`: `abs(acc) / 0xFFFFFFFF` clamped by
`max(0.0001, min(0.9999, seed))`; `abs` is the identity since the masked
accumulator is non-negative. -/
def generate_entropy_seed (password : String) : ℚ :=
  max 0.0001 (min 0.9999 ((seedAcc password : ℚ) / 4294967295))

/-- One step of the paired chaotic trajectories: the body of both loops of
`entropy_stream` updates `x = logistic_map(x)` and `y = tent_map(y)`. -/
def chaos_step (s : ℚ × ℚ) : ℚ × ℚ := (logistic_map s.1, tent_map s.2)

/-- The byte emitted by `entropy_stream` from the just-updated state:
`int(((x + y) / 2) * 256) & 0xFF`. -/
def emitByte (s : ℚ × ℚ) : ℕ :=
  ((pyInt (((s.1 + s.2) / 2) * 256)) % 256).toNat

/-- The emission loop of `entropy_stream`: apply `chaos_step` then yield,
`n` times. -/
def entropy_go (s : ℚ × ℚ) : ℕ → List ℕ
  | 0 => []
  | n + 1 =>
    let t := chaos_step s
    emitByte t :: entropy_go t n

/-- `entropy_stream(seed, length)`: start from `x = seed`, `y = tent_map(seed)`,
apply `chaos_step` 100 times (warm-up loop), then emit `length` bytes.  The
lazy Python generator is modelled by the finite list of the bytes it yields. -/
def entropy_stream (seed : ℚ) (length : ℕ) : List ℕ :=
  entropy_go (chaos_step^[100] (seed, tent_map seed)) length

/-- Body of `generate_entropy_fingerprint` after seed derivation: 32
keystream bytes, each formatted `"%02x"`, concatenated. -/
def fingerprint_seeded (seed : ℚ) : String :=
  String.mk ((entropy_stream seed 32).flatMap pyHex02)

/-- `generate_entropy_fingerprint(password)`. -/
def generate_entropy_fingerprint (password : String) : String :=
  fingerprint_seeded (generate_entropy_seed password)

/-- The per-byte update of `quantum_hash` on the selected state cell `t`
(after `state[p] ^= b`): `(t + int(logistic_map(t / 256) * 127)) & 0xFF`. -/
def hashCell (t : ℕ) : ℕ :=
  (((t : ℤ) + pyInt (logistic_map ((t : ℚ) / 256) * 127)) % 256).toNat

/-- Body of `quantum_hash` after seed derivation: a 32-byte state drawn
from the keystream, folded with every indexed byte of the data
(`p = i % 32`; `state[p] ^= b`; nonlinear cell update), then hex-encoded
(`bytearray.hex()` renders each byte as two lowercase hex digits). -/
def quantum_hash_seeded (seed : ℚ) (data : List ℕ) : String :=
  let state0 := entropy_stream seed 32
  let state := data.enum.foldl
    (fun st ib =>
      let p := ib.1 % 32
      st.set p (hashCell ((st.getD p 0) ^^^ ib.2)))
    state0
  String.mk (state.flatMap pyHex02)

/-- `quantum_hash(data, password)`. -/
def quantum_hash (data : List ℕ) (password : String) : String :=
  quantum_hash_seeded (generate_entropy_seed password) data

/-- The straight-line body of `quantum_encrypt` (reached when
`struct.pack` does not raise): length-prefixed XOR blob, fingerprint, and
the keyed checksum of the blob. -/
def quantum_encrypt_core (data : List ℕ) (password : String) :
    List ℕ × String × String :=
  let seed := generate_entropy_seed password
  let fingerprint := generate_entropy_fingerprint password
  let encrypted_bytes :=
    pack_be32 data.length ++ List.zipWith xorB data (entropy_stream seed data.length)
  (encrypted_bytes, fingerprint, quantum_hash encrypted_bytes password)

/-- `quantum_encrypt(data, password)`: `struct.pack(">I", len(data))`
raises `struct.error` (modelled `none`) when `len(data)` exceeds
`0xFFFFFFFF`; otherwise the function returns the triple. -/
def quantum_encrypt (data : List ℕ) (password : String) :
    Option (List ℕ × String × String) :=
  if data.length ≤ 4294967295 then some (quantum_encrypt_core data password)
  else none

/-- `quantum_decrypt(encrypted, password, expected_fingerprint, expected_hash)`.
Outer `none`: `struct.unpack` raised (fewer than 4 bytes reached it);
`some none`: Python's `return None`; `some (some bs)`: success. -/
def quantum_decrypt (encrypted : List ℕ) (password : String)
    (expected_fingerprint : String) (expected_hash : String) :
    Option (Option (List ℕ)) :=
  if generate_entropy_fingerprint password ≠ expected_fingerprint then some none
  else if quantum_hash encrypted password ≠ expected_hash then some none
  else
    match unpack_be32 (encrypted.take 4) with
    | none => none
    | some original_len =>
      let seed := generate_entropy_seed password
      let decrypted :=
        List.zipWith xorB (encrypted.drop 4) (entropy_stream seed original_len)
      if decrypted.length ≠ original_len then some none else some (some decrypted)

/-- The byte §4.2 of the specification emits after a step:
`floor(((x + y) / 2) * 256) & 0xFF` (with `floor`, not truncation). -/
def specByte (s : ℚ × ℚ) : ℕ :=
  (((((s.1 + s.2) / 2) * 256).floor) % 256).toNat

/-- The keystream as the specification words it: the `i`-th emitted byte
(0-based) is read off after `100` warm-up applications of both
recurrences plus `i + 1` emission-step applications, starting from
`x = seed`, `y = tent(seed)`. -/
def keystream_spec (seed : ℚ) (n : ℕ) : List ℕ :=
  (List.range n).map
    (fun i => specByte (chaos_step^[100 + (i + 1)] (seed, tent_map seed)))

/-- The lowercase hexadecimal alphabet. -/
def hexAlphabet : List Char := "0123456789abcdef".data

/-- Both chaotic trajectories lie strictly between 0 and 1. -/
def chaosInv (s : ℚ × ℚ) : Prop :=
  0 < s.1 ∧ s.1 < 1 ∧ 0 < s.2 ∧ s.2 < 1

/-- The bytes of `b"hello world"`. -/
def helloWorldBytes : List ℕ :=
  [104, 101, 108, 108, 111, 32, 119, 111, 114, 108, 100]

/-! ## Basic lemmas about the embedded operations -/

theorem entropy_go_length (n : ℕ) : ∀ s : ℚ × ℚ, (entropy_go s n).length = n := by
  induction n with
  | zero => intro s; rfl
  | succ n ih => intro s; simp [entropy_go, ih]

theorem entropy_stream_length (seed : ℚ) (n : ℕ) :
    (entropy_stream seed n).length = n :=
  entropy_go_length n _

theorem emitByte_lt (s : ℚ × ℚ) : emitByte s < 256 := by
  unfold emitByte
  have h1 : 0 ≤ pyInt (((s.1 + s.2) / 2) * 256) % 256 :=
    Int.emod_nonneg _ (by norm_num)
  have h2 : pyInt (((s.1 + s.2) / 2) * 256) % 256 < 256 :=
    Int.emod_lt_of_pos _ (by norm_num)
  omega

theorem entropy_go_mem (n : ℕ) :
    ∀ (s : ℚ × ℚ) (b : ℕ), b ∈ entropy_go s n → b < 256 := by
  induction n with
  | zero => intro s b h; simp [entropy_go] at h
  | succ n ih =>
    intro s b h
    simp only [entropy_go, List.mem_cons] at h
    rcases h with h | h
    · rw [h]; exact emitByte_lt _
    · exact ih _ _ h

theorem entropy_stream_mem (seed : ℚ) (n : ℕ) (b : ℕ)
    (h : b ∈ entropy_stream seed n) : b < 256 :=
  entropy_go_mem n _ b h

theorem zipWith_xorB_cancel :
    ∀ d s : List ℕ, List.zipWith xorB (List.zipWith xorB d s) s = d.take s.length := by
  intro d
  induction d with
  | nil => intro s; cases s <;> simp
  | cons a d ih =>
    intro s
    cases s with
    | nil => simp
    | cons k s =>
      simp only [List.zipWith, List.take, List.cons.injEq]
      constructor
      · unfold xorB
        rw [Nat.xor_assoc, Nat.xor_self, Nat.xor_zero]
      · exact ih s

theorem zipWith_eq_take {α : Type} (f : α → α → α) :
    ∀ l s : List α, List.zipWith f l s = List.zipWith f (l.take s.length) s := by
  intro l
  induction l with
  | nil => intro s; simp
  | cons a l ih =>
    intro s
    cases s with
    | nil => simp
    | cons k s =>
      simp only [List.length_cons, List.take_succ_cons, List.zipWith_cons_cons]
      rw [ih s]

theorem take4_pack (n : ℕ) (l : List ℕ) :
    (pack_be32 n ++ l).take 4 = pack_be32 n := rfl

theorem drop4_pack (n : ℕ) (l : List ℕ) :
    (pack_be32 n ++ l).drop 4 = l := rfl

theorem unpack_pack (n : ℕ) (h : n ≤ 4294967295) :
    unpack_be32 (pack_be32 n) = some n := by
  simp only [pack_be32, unpack_be32, Option.some.injEq]
  omega

theorem unpack_none_of_short (bs : List ℕ) (h : bs.length < 4) :
    unpack_be32 bs = none := by
  match bs, h with
  | [], _ => rfl
  | [_], _ => rfl
  | [_, _], _ => rfl
  | [_, _, _], _ => rfl

theorem unpack_some_of_four (bs : List ℕ) (h : bs.length = 4) :
    ∃ m, unpack_be32 bs = some m := by
  match bs, h with
  | [b0, b1, b2, b3], _ => exact ⟨_, rfl⟩

/-- Successful check path of `quantum_decrypt`: both string comparisons
pass and the prefix parses, leaving only the XOR pass and length check. -/
theorem quantum_decrypt_checks (B : List ℕ) (q fp chk : String) (L : ℕ)
    (h1 : generate_entropy_fingerprint q = fp)
    (h2 : quantum_hash B q = chk)
    (h3 : unpack_be32 (B.take 4) = some L) :
    quantum_decrypt B q fp chk =
      (if (List.zipWith xorB (B.drop 4)
            (entropy_stream (generate_entropy_seed q) L)).length ≠ L
       then some none
       else some (some (List.zipWith xorB (B.drop 4)
            (entropy_stream (generate_entropy_seed q) L)))) := by
  unfold quantum_decrypt
  rw [if_neg (by simp [h1]), if_neg (by simp [h2]), h3]

/-- Round-trip through the core transform: decrypting the blob produced
by `quantum_encrypt_core` with any password deriving the same seed
recovers the plaintext exactly. -/
theorem decrypt_encrypt_core (d : List ℕ) (p q : String)
    (hseed : generate_entropy_seed q = generate_entropy_seed p)
    (hlen : d.length ≤ 4294967295) :
    quantum_decrypt (quantum_encrypt_core d p).1 q
      (quantum_encrypt_core d p).2.1 (quantum_encrypt_core d p).2.2 =
      some (some d) := by
  have hfp : generate_entropy_fingerprint q = (quantum_encrypt_core d p).2.1 := by
    show generate_entropy_fingerprint q = generate_entropy_fingerprint p
    unfold generate_entropy_fingerprint
    rw [hseed]
  have hchk : quantum_hash (quantum_encrypt_core d p).1 q =
      (quantum_encrypt_core d p).2.2 := by
    show quantum_hash (quantum_encrypt_core d p).1 q =
      quantum_hash (quantum_encrypt_core d p).1 p
    unfold quantum_hash
    rw [hseed]
  have hblob : (quantum_encrypt_core d p).1 =
      pack_be32 d.length ++
        List.zipWith xorB d (entropy_stream (generate_entropy_seed p) d.length) := rfl
  have htake : (quantum_encrypt_core d p).1.take 4 = pack_be32 d.length := by
    rw [hblob, take4_pack]
  rw [quantum_decrypt_checks _ _ _ _ d.length hfp hchk
    (by rw [htake, unpack_pack _ hlen])]
  have hdrop : (quantum_encrypt_core d p).1.drop 4 =
      List.zipWith xorB d (entropy_stream (generate_entropy_seed p) d.length) := by
    rw [hblob, drop4_pack]
  rw [hdrop, hseed]
  have hcancel :
      List.zipWith xorB
        (List.zipWith xorB d (entropy_stream (generate_entropy_seed p) d.length))
        (entropy_stream (generate_entropy_seed p) d.length) = d := by
    rw [zipWith_xorB_cancel, entropy_stream_length, List.take_length]
  rw [hcancel, if_neg (by simp)]

/-! ## Hex formatting lemmas -/

theorem hexDigit_mem (k : ℕ) (h : k < 16) : hexDigit k ∈ hexAlphabet := by
  interval_cases k <;> decide

theorem pyHex02_of_lt (n : ℕ) (h : n < 256) :
    pyHex02 n = [hexDigit (n / 16), hexDigit (n % 16)] := by
  by_cases h16 : n < 16
  · have h1 : natToHex n = [hexDigit n] := by rw [natToHex, dif_pos h16]
    have h2 : n / 16 = 0 := Nat.div_eq_of_lt h16
    have h3 : n % 16 = n := Nat.mod_eq_of_lt h16
    rw [pyHex02]
    simp only [h1, h2, h3, List.length_singleton]
    rw [if_pos (by norm_num)]
    rfl
  · have hq : n / 16 < 16 := by omega
    have h1 : natToHex n = [hexDigit (n / 16), hexDigit (n % 16)] := by
      rw [natToHex, dif_neg h16, natToHex, dif_pos hq]
      rfl
    rw [pyHex02]
    simp only [h1]
    rw [if_neg (by simp)]

theorem pyHex02_length (n : ℕ) (h : n < 256) : (pyHex02 n).length = 2 := by
  rw [pyHex02_of_lt n h]
  rfl

theorem flatMap_pyHex02_length (l : List ℕ) (h : ∀ b ∈ l, b < 256) :
    (l.flatMap pyHex02).length = 2 * l.length := by
  induction l with
  | nil => rfl
  | cons a l ih =>
    simp only [List.flatMap_cons, List.length_append, List.length_cons]
    rw [pyHex02_length a (h a (by simp)), ih (fun b hb => h b (by simp [hb]))]
    ring

theorem flatMap_pyHex02_mem (l : List ℕ) (h : ∀ b ∈ l, b < 256)
    (ch : Char) (hch : ch ∈ l.flatMap pyHex02) : ch ∈ hexAlphabet := by
  rw [List.mem_flatMap] at hch
  obtain ⟨b, hb, hchb⟩ := hch
  have hblt : b < 256 := h b hb
  rw [pyHex02_of_lt b hblt] at hchb
  simp only [List.mem_cons, List.not_mem_nil, or_false] at hchb
  rcases hchb with hd | hd <;> rw [hd]
  · exact hexDigit_mem _ (by omega)
  · exact hexDigit_mem _ (Nat.mod_lt _ (by norm_num))

/-! ## Chaotic trajectory invariants and the keystream characterisation -/

theorem logistic_map_inv (x : ℚ) (h0 : 0 < x) (h1 : x < 1) :
    0 < logistic_map x ∧ logistic_map x < 1 := by
  unfold logistic_map
  constructor
  · have : (0 : ℚ) < 1 - x := by linarith
    positivity
  · nlinarith [sq_nonneg (2 * x - 1)]

theorem tent_map_inv (x : ℚ) (h0 : 0 < x) (h1 : x < 1) :
    0 < tent_map x ∧ tent_map x < 1 := by
  unfold tent_map
  by_cases h : x < 0.5
  · rw [if_pos h]
    constructor
    · linarith
    · nlinarith
  · rw [if_neg h]
    push_neg at h
    constructor
    · linarith
    · nlinarith

theorem chaos_step_inv (s : ℚ × ℚ) (h : chaosInv s) : chaosInv (chaos_step s) := by
  obtain ⟨hx0, hx1, hy0, hy1⟩ := h
  obtain ⟨ha, hb⟩ := logistic_map_inv s.1 hx0 hx1
  obtain ⟨hc, hd⟩ := tent_map_inv s.2 hy0 hy1
  exact ⟨ha, hb, hc, hd⟩

theorem chaos_iterate_inv (k : ℕ) (s : ℚ × ℚ) (h : chaosInv s) :
    chaosInv (chaos_step^[k] s) := by
  induction k generalizing s with
  | zero => exact h
  | succ k ih =>
    rw [Function.iterate_succ_apply]
    exact ih _ (chaos_step_inv s h)

theorem emitByte_eq_specByte (s : ℚ × ℚ) (h : chaosInv s) :
    emitByte s = specByte s := by
  obtain ⟨hx0, hx1, hy0, hy1⟩ := h
  have hq : (0 : ℚ) ≤ ((s.1 + s.2) / 2) * 256 := by
    have : (0 : ℚ) ≤ s.1 + s.2 := by linarith
    positivity
  unfold emitByte specByte pyInt
  rw [if_pos hq]

theorem entropy_go_eq_spec (n : ℕ) :
    ∀ s : ℚ × ℚ, chaosInv s →
      entropy_go s n =
        (List.range n).map (fun i => specByte (chaos_step^[i + 1] s)) := by
  induction n with
  | zero => intro s _; rfl
  | succ n ih =>
    intro s hs
    have hstep : chaosInv (chaos_step s) := chaos_step_inv s hs
    simp only [entropy_go]
    rw [List.range_succ_eq_map, List.map_cons, List.map_map]
    congr 1
    · rw [Nat.zero_add, Function.iterate_one]
      exact emitByte_eq_specByte _ hstep
    · rw [ih (chaos_step s) hstep]
      apply List.map_congr_left
      intro i _
      simp only [Function.comp_apply]
      rw [← Function.iterate_succ_apply]

theorem entropy_stream_eq_spec (seed : ℚ) (n : ℕ) (h0 : 0 < seed) (h1 : seed < 1) :
    entropy_stream seed n = keystream_spec seed n := by
  have hy := tent_map_inv seed h0 h1
  have hinv : chaosInv (seed, tent_map seed) := ⟨h0, h1, hy.1, hy.2⟩
  have h100 := chaos_iterate_inv 100 _ hinv
  unfold entropy_stream keystream_spec
  rw [entropy_go_eq_spec n _ h100]
  apply List.map_congr_left
  intro i _
  rw [← Function.iterate_add_apply, Nat.add_comm (i + 1) 100]

/-! ## Claim theorems -/

/-- Claim C7: for every seed (in the seed domain, which lies strictly
between 0 and 1) and requested length `n`, `entropy_stream` applies the
logistic recurrence (from `x = seed`) and the tent recurrence (from
`y = tent(seed)`) 100 times without emitting, then for each of the `n`
emission steps applies both once more and emits
`floor(((x + y) / 2) * 256) & 0xFF`; in particular exactly `n` bytes are
emitted. -/
theorem C7_keystream_warmup_emission (seed : ℚ) (n : ℕ)
    (h0 : 0 < seed) (h1 : seed < 1) :
    entropy_stream seed n = keystream_spec seed n ∧
    (entropy_stream seed n).length = n :=
  ⟨entropy_stream_eq_spec seed n h0 h1, entropy_stream_length seed n⟩

/-- Witness for C7 at `seed = 1/2`, `n = 5`. -/
theorem C7_keystream_warmup_emission_witness :
    (0 : ℚ) < 1/2 ∧ (1/2 : ℚ) < 1 ∧
    (entropy_stream (1/2) 5 = keystream_spec (1/2) 5 ∧
     (entropy_stream (1/2) 5).length = 5) :=
  ⟨by norm_num, by norm_num,
   C7_keystream_warmup_emission (1/2) 5 (by norm_num) (by norm_num)⟩

/-- Claim C8: the fingerprint of any password is the 64-character
lowercase-hex encoding, in stream order, of the first 32 keystream bytes
drawn from the password's derived seed; it is a function of the password
alone. -/
theorem C8_fingerprint_hex (p : String) :
    (generate_entropy_fingerprint p).length = 64 ∧
    (∀ ch ∈ (generate_entropy_fingerprint p).data, ch ∈ hexAlphabet) ∧
    generate_entropy_fingerprint p =
      String.mk ((entropy_stream (generate_entropy_seed p) 32).flatMap pyHex02) := by
  refine ⟨?_, ?_, rfl⟩
  · show ((entropy_stream (generate_entropy_seed p) 32).flatMap pyHex02).length = 64
    rw [flatMap_pyHex02_length _ (fun b hb => entropy_stream_mem _ _ b hb),
        entropy_stream_length]
  · intro ch hch
    exact flatMap_pyHex02_mem _ (fun b hb => entropy_stream_mem _ _ b hb) ch hch

/-- Claim C9 (counterexample): the empty password yields the seed
`0.0001` exactly — the boundary of the claimed open interval
`(0.0001, 0.9999)`, hence not inside it. -/
theorem C9_counterexample :
    generate_entropy_seed "" = 1/10000 ∧
    ¬ (1/10000 < generate_entropy_seed "" ∧
       generate_entropy_seed "" < 9999/10000) := by
  have hacc : seedAcc "" = 0 := by decide
  have hs : generate_entropy_seed "" = 1/10000 := by
    unfold generate_entropy_seed
    rw [hacc, min_eq_right (by norm_num), max_eq_left (by norm_num)]
    norm_num
  refine ⟨hs, ?_⟩
  rintro ⟨hlt, _⟩
  rw [hs] at hlt
  exact lt_irrefl _ hlt

/-- Claim C9 (amended): every password (including the empty string)
yields a seed in the CLOSED interval `[0.0001, 0.9999]`, computed as
`clamp(acc / (2^32 - 1), 0.0001, 0.9999)` from the 32-bit accumulator;
the boundaries are attained (see the counterexample), so the interval is
closed, not open. -/
theorem C9_seed_clamped_range (p : String) :
    1/10000 ≤ generate_entropy_seed p ∧
    generate_entropy_seed p ≤ 9999/10000 ∧
    generate_entropy_seed p =
      max 0.0001 (min 0.9999 ((seedAcc p : ℚ) / 4294967295)) := by
  unfold generate_entropy_seed
  refine ⟨?_, ?_, rfl⟩
  · calc (1/10000 : ℚ) = 0.0001 := by norm_num
      _ ≤ max 0.0001 (min 0.9999 ((seedAcc p : ℚ) / 4294967295)) := le_max_left _ _
  · apply max_le
    · norm_num
    · calc min 0.9999 ((seedAcc p : ℚ) / 4294967295) ≤ 0.9999 := min_le_left _ _
        _ ≤ 9999/10000 := by norm_num

/-- Claim C2 (counterexample): the core `quantum_encrypt` called with
zero-length data does not signal any error; it returns a blob — the bare
4-byte zero length prefix. -/
theorem C2_counterexample :
    quantum_encrypt [] "password" = some (quantum_encrypt_core [] "password") ∧
    (quantum_encrypt_core [] "password").1 = [0, 0, 0, 0] := by
  constructor
  · unfold quantum_encrypt
    rw [if_pos (by decide)]
  · rfl

/-- Claim C2 (amended): `quantum_encrypt` itself performs no empty-input
check: for every password it succeeds on zero-length data, returning the
4-byte blob `[0, 0, 0, 0]` (a zero length prefix and no payload) together
with the fingerprint and checksum; the empty-input rejection described by
the specification exists only in the calling service layer (`main.py`),
which refuses empty uploads before invoking the core. -/
theorem C2_no_empty_input_check (p : String) :
    quantum_encrypt [] p = some (quantum_encrypt_core [] p) ∧
    (quantum_encrypt_core [] p).1 = [0, 0, 0, 0] ∧
    (quantum_encrypt_core [] p).1.length = 4 := by
  refine ⟨?_, rfl, rfl⟩
  unfold quantum_encrypt
  rw [if_pos (by decide)]

/-- Claim C1: whenever `quantum_encrypt` returns a triple
`(blob, fingerprint, checksum)` for a non-empty buffer, decrypting that
blob with the same password and the returned fingerprint and checksum
succeeds and returns the plaintext bit-for-bit. -/
theorem C1_round_trip (d : List ℕ) (p : String) (b : List ℕ) (f c : String)
    (hd : d ≠ []) (he : quantum_encrypt d p = some (b, f, c)) :
    quantum_decrypt b p f c = some (some d) := by
  unfold quantum_encrypt at he
  by_cases hl : d.length ≤ 4294967295
  · rw [if_pos hl] at he
    have h2 := Option.some.inj he
    have hb := congrArg Prod.fst h2
    have hf := congrArg (fun t => t.2.1) h2
    have hc := congrArg (fun t => t.2.2) h2
    simp only at hb hf hc
    rw [← hb, ← hf, ← hc]
    exact decrypt_encrypt_core d p p rfl hl
  · rw [if_neg hl] at he
    exact Option.noConfusion he

/-- Witness for C1 at `d = [104, 105]`, `p = "pw"`. -/
theorem C1_round_trip_witness :
    ([104, 105] : List ℕ) ≠ [] ∧
    quantum_encrypt [104, 105] "pw" =
      some ((quantum_encrypt_core [104, 105] "pw").1,
            (quantum_encrypt_core [104, 105] "pw").2.1,
            (quantum_encrypt_core [104, 105] "pw").2.2) ∧
    quantum_decrypt (quantum_encrypt_core [104, 105] "pw").1 "pw"
      (quantum_encrypt_core [104, 105] "pw").2.1
      (quantum_encrypt_core [104, 105] "pw").2.2 = some (some [104, 105]) := by
  have he : quantum_encrypt [104, 105] "pw" =
      some ((quantum_encrypt_core [104, 105] "pw").1,
            (quantum_encrypt_core [104, 105] "pw").2.1,
            (quantum_encrypt_core [104, 105] "pw").2.2) := by
    unfold quantum_encrypt
    rw [if_pos (by decide)]
  exact ⟨by decide, he, C1_round_trip [104, 105] "pw" _ _ _ (by decide) he⟩

/-- Claim C3: whenever `quantum_encrypt` returns a blob, the blob has
length exactly `4 + len(data)` and its first four bytes, read as a
big-endian unsigned 32-bit integer, decode to `len(data)`. -/
theorem C3_blob_layout (d : List ℕ) (p : String) (b : List ℕ) (f c : String)
    (he : quantum_encrypt d p = some (b, f, c)) :
    b.length = 4 + d.length ∧ unpack_be32 (b.take 4) = some d.length := by
  unfold quantum_encrypt at he
  by_cases hl : d.length ≤ 4294967295
  · rw [if_pos hl] at he
    have h2 := Option.some.inj he
    have hb := congrArg Prod.fst h2
    simp only at hb
    have hblob : b = pack_be32 d.length ++
        List.zipWith xorB d (entropy_stream (generate_entropy_seed p) d.length) := by
      rw [← hb]
      rfl
    constructor
    · rw [hblob, List.length_append, List.length_zipWith, entropy_stream_length]
      simp [pack_be32]
    · rw [hblob, take4_pack, unpack_pack _ hl]
  · rw [if_neg hl] at he
    exact Option.noConfusion he

/-- Witness for C3 on the concrete scenario of the specification:
`encrypt(b"hello world", "correcthorse")` yields a 15-byte blob whose
4-byte big-endian prefix decodes to 11. -/
theorem C3_blob_layout_witness :
    quantum_encrypt helloWorldBytes "correcthorse" =
      some ((quantum_encrypt_core helloWorldBytes "correcthorse").1,
            (quantum_encrypt_core helloWorldBytes "correcthorse").2.1,
            (quantum_encrypt_core helloWorldBytes "correcthorse").2.2) ∧
    (quantum_encrypt_core helloWorldBytes "correcthorse").1.length = 15 ∧
    unpack_be32 ((quantum_encrypt_core helloWorldBytes "correcthorse").1.take 4) =
      some 11 := by
  have he : quantum_encrypt helloWorldBytes "correcthorse" =
      some ((quantum_encrypt_core helloWorldBytes "correcthorse").1,
            (quantum_encrypt_core helloWorldBytes "correcthorse").2.1,
            (quantum_encrypt_core helloWorldBytes "correcthorse").2.2) := by
    unfold quantum_encrypt
    rw [if_pos (by decide)]
  have h3 := C3_blob_layout helloWorldBytes "correcthorse" _ _ _ he
  refine ⟨he, ?_, ?_⟩
  · rw [h3.1]
    decide
  · rw [h3.2]
    decide

/-- Claim C5 (counterexample): the distinct passwords `"A"` and `"B"`
derive the identical clamped seed `0.0001`, hence identical fingerprint,
checksum and keystream: decrypting `encrypt([7], "A")` with the wrong
password `"B"` succeeds and returns the plaintext instead of failing. -/
theorem C5_counterexample :
    ("A" : String) ≠ "B" ∧
    quantum_encrypt [7] "A" =
      some ((quantum_encrypt_core [7] "A").1,
            (quantum_encrypt_core [7] "A").2.1,
            (quantum_encrypt_core [7] "A").2.2) ∧
    quantum_decrypt (quantum_encrypt_core [7] "A").1 "B"
      (quantum_encrypt_core [7] "A").2.1
      (quantum_encrypt_core [7] "A").2.2 = some (some [7]) := by
  have hA : generate_entropy_seed "A" = 1/10000 := by
    have hacc : seedAcc "A" = 65 := by decide
    unfold generate_entropy_seed
    rw [hacc, min_eq_right (by norm_num), max_eq_left (by norm_num)]
    norm_num
  have hB : generate_entropy_seed "B" = 1/10000 := by
    have hacc : seedAcc "B" = 66 := by decide
    unfold generate_entropy_seed
    rw [hacc, min_eq_right (by norm_num), max_eq_left (by norm_num)]
    norm_num
  have hseed : generate_entropy_seed "B" = generate_entropy_seed "A" := by
    rw [hA, hB]
  refine ⟨by decide, ?_, ?_⟩
  · unfold quantum_encrypt
    rw [if_pos (by decide)]
  · exact decrypt_encrypt_core [7] "A" "B" hseed (by decide)

/-- Claim C5 (amended): decrypting with a different password fails with
the uniform failure signal whenever that password's fingerprint differs
from the stored one; distinct passwords are not guaranteed distinct
fingerprints (seeds can collide after clamping, as with `"A"` and `"B"`),
and for such colliding passwords decryption can succeed. -/
theorem C5_wrong_password_rejection (d : List ℕ) (p1 p2 : String)
    (b : List ℕ) (f c : String)
    (hne : p1 ≠ p2) (he : quantum_encrypt d p1 = some (b, f, c)) :
    quantum_decrypt b p2 f c = some none ∨
    generate_entropy_fingerprint p2 = f := by
  by_cases hfp : generate_entropy_fingerprint p2 = f
  · exact Or.inr hfp
  · left
    unfold quantum_decrypt
    rw [if_pos hfp]

/-- Witness for the amended C5 at `d = [3]`, `p1 = "aa"`, `p2 = "ab"`. -/
theorem C5_wrong_password_rejection_witness :
    ("aa" : String) ≠ "ab" ∧
    quantum_encrypt [3] "aa" =
      some ((quantum_encrypt_core [3] "aa").1,
            (quantum_encrypt_core [3] "aa").2.1,
            (quantum_encrypt_core [3] "aa").2.2) ∧
    (quantum_decrypt (quantum_encrypt_core [3] "aa").1 "ab"
        (quantum_encrypt_core [3] "aa").2.1
        (quantum_encrypt_core [3] "aa").2.2 = some none ∨
      generate_entropy_fingerprint "ab" = (quantum_encrypt_core [3] "aa").2.1) := by
  have he : quantum_encrypt [3] "aa" =
      some ((quantum_encrypt_core [3] "aa").1,
            (quantum_encrypt_core [3] "aa").2.1,
            (quantum_encrypt_core [3] "aa").2.2) := by
    unfold quantum_encrypt
    rw [if_pos (by decide)]
  exact ⟨by decide, he,
    C5_wrong_password_rejection [3] "aa" "ab" _ _ _ (by decide) he⟩

/-- Claim C4 (counterexample): a 3-byte blob presented with an expected
fingerprint and checksum that both match passes the two checks, and the
unguarded `struct.unpack` on the short prefix then raises (outer `none`)
instead of returning the uniform failure signal (`some none`): there is
no `len(blob) >= 4` requirement in the code. -/
theorem C4_counterexample :
    quantum_decrypt [0, 0, 0] "pw" (generate_entropy_fingerprint "pw")
      (quantum_hash [0, 0, 0] "pw") = none ∧
    quantum_decrypt [0, 0, 0] "pw" (generate_entropy_fingerprint "pw")
      (quantum_hash [0, 0, 0] "pw") ≠ some none := by
  have h : quantum_decrypt [0, 0, 0] "pw" (generate_entropy_fingerprint "pw")
      (quantum_hash [0, 0, 0] "pw") = none := by
    unfold quantum_decrypt
    rw [if_neg (by simp), if_neg (by simp)]
    rfl
  refine ⟨h, ?_⟩
  rw [h]
  exact fun hc => Option.noConfusion hc

/-- Claim C4 (amended): on a blob shorter than 4 bytes `quantum_decrypt`
never succeeds and never reads out of bounds, but it performs no explicit
length check: it returns the uniform failure signal only when the
fingerprint or checksum check already fails; when both checks pass, the
4-byte prefix read raises `struct.error` (an exception, not the failure
signal). -/
theorem C4_short_blob (B : List ℕ) (p f c : String) (h : B.length < 4) :
    (quantum_decrypt B p f c = some none ∨ quantum_decrypt B p f c = none) ∧
    ∀ bs, quantum_decrypt B p f c ≠ some (some bs) := by
  have hun : unpack_be32 (B.take 4) = none := by
    apply unpack_none_of_short
    rw [List.length_take]
    omega
  have hv : quantum_decrypt B p f c = some none ∨ quantum_decrypt B p f c = none := by
    unfold quantum_decrypt
    by_cases h1 : generate_entropy_fingerprint p ≠ f
    · rw [if_pos h1]
      exact Or.inl rfl
    · rw [if_neg h1]
      by_cases h2 : quantum_hash B p ≠ c
      · rw [if_pos h2]
        exact Or.inl rfl
      · rw [if_neg h2, hun]
        exact Or.inr rfl
  refine ⟨hv, ?_⟩
  intro bs hc
  rcases hv with hx | hx <;> rw [hx] at hc <;> simp at hc

/-- Witness for the amended C4 at `B = [9]`. -/
theorem C4_short_blob_witness :
    ([9] : List ℕ).length < 4 ∧
    (((quantum_decrypt [9] "z" "" "" = some none ∨
       quantum_decrypt [9] "z" "" "" = none)) ∧
     ∀ bs, quantum_decrypt [9] "z" "" "" ≠ some (some bs)) :=
  ⟨by decide, C4_short_blob [9] "z" "" "" (by decide)⟩

/-- Claim C6 (counterexample): a 2-byte blob whose expected fingerprint
and checksum both match produces the exception outcome (outer `none`),
which is neither recovered bytes nor the uniform failure signal
`some none` — so not all failure conditions yield the single uniform
failure value. -/
theorem C6_counterexample :
    quantum_decrypt [1, 2] "q" (generate_entropy_fingerprint "q")
      (quantum_hash [1, 2] "q") = none ∧
    quantum_decrypt [1, 2] "q" (generate_entropy_fingerprint "q")
      (quantum_hash [1, 2] "q") ≠ some none := by
  have h : quantum_decrypt [1, 2] "q" (generate_entropy_fingerprint "q")
      (quantum_hash [1, 2] "q") = none := by
    unfold quantum_decrypt
    rw [if_neg (by simp), if_neg (by simp)]
    rfl
  refine ⟨h, ?_⟩
  rw [h]
  exact fun hc => Option.noConfusion hc

/-- Claim C6 (amended): for every blob of length at least 4 (the only
shape the unguarded prefix read accepts), `quantum_decrypt` either
returns the recovered bytes or returns the single uniform failure signal
`None`; the fingerprint, checksum and length-mismatch failures are
indistinguishable to the caller.  (For shorter blobs a passing pair of
checks instead raises an exception — see the counterexample.) -/
theorem C6_failure_uniformity (B : List ℕ) (p f c : String) (h : 4 ≤ B.length) :
    quantum_decrypt B p f c = some none ∨
    ∃ bs, quantum_decrypt B p f c = some (some bs) := by
  by_cases h1 : generate_entropy_fingerprint p = f
  · by_cases h2 : quantum_hash B p = c
    · obtain ⟨m, hm⟩ := unpack_some_of_four (B.take 4)
        (by rw [List.length_take]; omega)
      rw [quantum_decrypt_checks B p f c m h1 h2 hm]
      by_cases h3 : (List.zipWith xorB (B.drop 4)
          (entropy_stream (generate_entropy_seed p) m)).length ≠ m
      · rw [if_pos h3]
        exact Or.inl rfl
      · rw [if_neg h3]
        exact Or.inr ⟨_, rfl⟩
    · left
      unfold quantum_decrypt
      rw [if_neg (by simp [h1]), if_pos h2]
  · left
    unfold quantum_decrypt
    rw [if_pos h1]

/-- Witness for the amended C6 at `B = [9, 9, 9, 9]`. -/
theorem C6_failure_uniformity_witness :
    4 ≤ ([9, 9, 9, 9] : List ℕ).length ∧
    (quantum_decrypt [9, 9, 9, 9] "x" "" "" = some none ∨
     ∃ bs, quantum_decrypt [9, 9, 9, 9] "x" "" "" = some (some bs)) :=
  ⟨by decide, C6_failure_uniformity [9, 9, 9, 9] "x" "" "" (by decide)⟩

/-- Claim C10: when the fingerprint and checksum checks pass, the prefix
decodes to `N`, and the blob carries at least `N` payload bytes,
`quantum_decrypt` succeeds and returns exactly the first `N` payload
bytes XOR-ed with the keystream, silently ignoring any trailing bytes
beyond offset `4 + N`. -/
theorem C10_overlong_blob (B : List ℕ) (p f c : String) (N : ℕ)
    (h1 : generate_entropy_fingerprint p = f)
    (h2 : quantum_hash B p = c)
    (h3 : unpack_be32 (B.take 4) = some N)
    (h4 : 4 + N ≤ B.length) :
    quantum_decrypt B p f c =
      some (some (List.zipWith xorB ((B.drop 4).take N)
        (entropy_stream (generate_entropy_seed p) N))) ∧
    (List.zipWith xorB ((B.drop 4).take N)
      (entropy_stream (generate_entropy_seed p) N)).length = N := by
  have hlen : (List.zipWith xorB (B.drop 4)
      (entropy_stream (generate_entropy_seed p) N)).length = N := by
    rw [List.length_zipWith, entropy_stream_length, List.length_drop]
    omega
  have heq : List.zipWith xorB (B.drop 4)
        (entropy_stream (generate_entropy_seed p) N) =
      List.zipWith xorB ((B.drop 4).take N)
        (entropy_stream (generate_entropy_seed p) N) := by
    rw [zipWith_eq_take xorB (B.drop 4)
        (entropy_stream (generate_entropy_seed p) N), entropy_stream_length]
  constructor
  · rw [quantum_decrypt_checks B p f c N h1 h2 h3]
    rw [if_neg (by rw [hlen]; exact fun hcon => hcon rfl), heq]
  · rw [← heq]
    exact hlen

/-- Witness for C10 at `B = [0, 0, 0, 1, 5, 9]` (prefix decodes to 1,
one payload byte, one trailing byte). -/
theorem C10_overlong_blob_witness :
    unpack_be32 (([0, 0, 0, 1, 5, 9] : List ℕ).take 4) = some 1 ∧
    4 + 1 ≤ ([0, 0, 0, 1, 5, 9] : List ℕ).length ∧
    (quantum_decrypt [0, 0, 0, 1, 5, 9] "pw" (generate_entropy_fingerprint "pw")
        (quantum_hash [0, 0, 0, 1, 5, 9] "pw") =
      some (some (List.zipWith xorB ((([0, 0, 0, 1, 5, 9] : List ℕ).drop 4).take 1)
        (entropy_stream (generate_entropy_seed "pw") 1))) ∧
     (List.zipWith xorB ((([0, 0, 0, 1, 5, 9] : List ℕ).drop 4).take 1)
       (entropy_stream (generate_entropy_seed "pw") 1)).length = 1) :=
  ⟨rfl, by decide,
   C10_overlong_blob [0, 0, 0, 1, 5, 9] "pw" _ _ 1 rfl rfl rfl (by decide)⟩
